import Mathlib

/-
Verification of the MemoLanes lazy tile-cache and rendering core.

The definitions below are a shallow embedding of the Rust sources
src/app/rust/src/renderer/map_renderer.rs and
src/app/rust/src/merged_journey_builder.rs.  Collaborators that live
outside those files (the journey_bitmap tile type, the journey_data
codec, the cache database, the tile shader and the journey-area
computation) are modelled from the specification, as documented on the
corresponding definitions.  Machine integers are modelled as Nat / Int;
the 64-bit renderer version wraps explicitly modulo 2 ^ 64.
-/

set_option maxHeartbeats 1000000
set_option maxRecDepth 4000

/-- Presence raster of one zoom-9 bitmap tile, modelled as the finite set of
lit sub-grid bits.  Modelled from the spec: journey_bitmap Tile, whose
merge is a logical OR of presence bits. -/
abbrev Tile := Finset (Nat × Nat)

/-- Logical OR merge of another tile into this one.
Modelled from the spec: Tile merge_from. -/
def Tile.merge_from (t other : Tile) : Tile := t ∪ other

/-- Sparse mapping from zoom-9 tile coordinates to tiles.
Modelled from the spec: journey_bitmap JourneyBitmap; the Rust HashMap is
modelled as a function to Option. -/
structure JourneyBitmap where
  tiles : (Nat × Nat) → Option Tile

/-- The empty journey bitmap. -/
def JourneyBitmap.new : JourneyBitmap := ⟨fun _ => none⟩

/-- Insert (or overwrite) the tile stored at a coordinate. -/
def JourneyBitmap.insert_tile (b : JourneyBitmap) (k : Nat × Nat) (t : Tile) : JourneyBitmap :=
  ⟨fun j => if j = k then some t else b.tiles j⟩

/-- Merge another bitmap into this one, tile-wise logical OR.
Modelled from the spec: JourneyBitmap merge. -/
def JourneyBitmap.merge (b other : JourneyBitmap) : JourneyBitmap :=
  ⟨fun k =>
    match b.tiles k, other.tiles k with
    | some t1, some t2 => some (t1.merge_from t2)
    | some t1, none => some t1
    | none, o => o⟩

/-- Extensional equality of journey bitmaps, the meaning of the Rust
equality on the underlying HashMap. -/
def JourneyBitmap.equiv (b1 b2 : JourneyBitmap) : Prop :=
  ∀ k, b1.tiles k = b2.tiles k

/-- Compressed payload of a single serialized tile.  Modelled from the spec:
a payload either decodes to a tile or is corrupt, in which case
deserialization fails (TileDecompressionFailed). -/
inductive TilePayload where
  | tile (t : Tile)
  | corrupt
deriving DecidableEq

/-- A serialized bitmap blob, reduced to its tile directory: every occupied
tile coordinate together with its compressed payload.  Modelled from the
spec: the blob format is a tile index followed by independently
decompressible payloads. -/
abbrev Blob := List ((Nat × Nat) × TilePayload)

/-- Decode one compressed tile payload.  Modelled from the spec:
journey_data deserialize_tile, which fails on a corrupt payload. -/
def deserialize_tile : TilePayload → Except String Tile
  | .tile t => .ok t
  | .corrupt => .error "TileDecompressionFailed"

/-- Parse only the tile directory of a blob, decompressing nothing.
Modelled from the spec: journey_data parse_tile_index. -/
def parse_tile_index (raw : Blob) : Except String Blob := .ok raw

/-- First-match lookup in a tile directory, the model of HashMap get. -/
def blob_lookup (k : Nat × Nat) : Blob → Option TilePayload
  | [] => none
  | kp :: rest => if k = kp.1 then some kp.2 else blob_lookup k rest

/-- Fully reconstruct a journey bitmap from a blob.  Modelled from the spec:
journey_data deserialize, which decodes every tile payload and fails if
any payload is corrupt. -/
def deserialize_journey_bitmap (raw : Blob) : Except String JourneyBitmap :=
  raw.foldlM (fun bm kp => (deserialize_tile kp.2).map (fun t => bm.insert_tile kp.1 t))
    JourneyBitmap.new

/-- Holds a serialized bitmap blob and a tile index for on-demand
decompression (map_renderer.rs, struct LazyTileSource). -/
structure LazyTileSource where
  tile_index : Blob
deriving DecidableEq

/-- Build from a raw serialized bitmap blob; only parses tile headers
(map_renderer.rs, LazyTileSource from_serialized_bitmap). -/
def LazyTileSource.from_serialized_bitmap (raw : Blob) : Except String LazyTileSource :=
  (parse_tile_index raw).map (fun ti => ⟨ti⟩)

/-- Decompress a single tile on demand (map_renderer.rs, LazyTileSource
decompress_tile).  A deserialization error is converted to none by the
ok() call in the source. -/
def LazyTileSource.decompress_tile (src : LazyTileSource) (x y : Nat) : Option Tile :=
  (blob_lookup (x, y) src.tile_index).bind (fun p => (deserialize_tile p).toOption)

/-- All tile coordinates present in the source (map_renderer.rs,
LazyTileSource tile_keys). -/
def LazyTileSource.tile_keys (src : LazyTileSource) : List (Nat × Nat) :=
  src.tile_index.map Prod.fst

/-- Per-tile area cache of the renderer; the f64 area values of the source
are abstracted to Nat tokens, which no claim inspects. -/
abbrev AreaCache := (Nat × Nat) → Option Nat

/-- State of the map renderer (map_renderer.rs, struct MapRenderer). -/
structure MapRenderer where
  journey_bitmap : JourneyBitmap
  lazy_source : Option LazyTileSource
  loaded_tiles : Finset (Nat × Nat)
  tile_area_cache : AreaCache
  version : Nat
  current_area : Option Nat

/-- Per-tile rendering preparation hook; currently the identity
(map_renderer.rs, prepare_tiles_for_rendering). -/
def prepare_tiles_for_rendering (t : Tile) : Tile := t

/-- Apply the rendering preparation hook to every tile of a bitmap
(map_renderer.rs, prepare_journey_bitmap_for_rendering). -/
def prepare_journey_bitmap_for_rendering (b : JourneyBitmap) : JourneyBitmap :=
  ⟨fun k => (b.tiles k).map prepare_tiles_for_rendering⟩

/-- Construct a renderer over an initial bitmap (map_renderer.rs,
MapRenderer new). -/
def MapRenderer.new (b : JourneyBitmap) : MapRenderer :=
  { journey_bitmap := prepare_journey_bitmap_for_rendering b
    lazy_source := none
    loaded_tiles := ∅
    tile_area_cache := fun _ => none
    version := 0
    current_area := none }

/-- Bump the version (wrapping 64-bit increment) and clear the memoized
area (map_renderer.rs, MapRenderer reset). -/
def MapRenderer.reset (s : MapRenderer) : MapRenderer :=
  { s with version := (s.version + 1) % 2 ^ 64, current_area := none }

/-- Run a caller-supplied mutation that reports changed tile positions,
re-prepare the changed tiles, evict their area-cache entries and reset
(map_renderer.rs, MapRenderer update).  The Rust mutator with its
tile-changed callback is modelled as a function returning the new bitmap
together with the reported positions. -/
def MapRenderer.update (s : MapRenderer)
    (f : JourneyBitmap → JourneyBitmap × List (Nat × Nat)) : MapRenderer :=
  let r := f s.journey_bitmap
  let changed := r.2
  let bm := changed.foldl (fun b pos =>
    match b.tiles pos with
    | some t => b.insert_tile pos (prepare_tiles_for_rendering t)
    | none => b) r.1
  let cache := changed.foldl
    (fun (c : AreaCache) pos => fun k => if k = pos then none else c k) s.tile_area_cache
  MapRenderer.reset { s with journey_bitmap := bm, tile_area_cache := cache }

/-- Replace the working bitmap, dropping the lazy source and all caches
(map_renderer.rs, MapRenderer replace). -/
def MapRenderer.replace (s : MapRenderer) (b : JourneyBitmap) : MapRenderer :=
  MapRenderer.reset { s with
    journey_bitmap := prepare_journey_bitmap_for_rendering b
    lazy_source := none
    loaded_tiles := ∅
    tile_area_cache := fun _ => none }

/-- Replace with a lazy tile source and a small ongoing bitmap
(map_renderer.rs, MapRenderer replace_lazy). -/
def MapRenderer.replace_lazy (s : MapRenderer) (src : LazyTileSource)
    (ongoing : JourneyBitmap) : MapRenderer :=
  MapRenderer.reset { s with
    journey_bitmap := prepare_journey_bitmap_for_rendering ongoing
    lazy_source := some src
    loaded_tiles := ∅
    tile_area_cache := fun _ => none }

/-- Drop the lazy source and the loaded-tiles tracking to free memory
(map_renderer.rs, MapRenderer drop_lazy_source). -/
def MapRenderer.drop_lazy_source (s : MapRenderer) : MapRenderer :=
  { s with lazy_source := none, loaded_tiles := ∅ }

/-- Read access to the working bitmap; does not force lazy loading
(map_renderer.rs, MapRenderer peek_latest_bitmap). -/
def MapRenderer.peek_latest_bitmap (s : MapRenderer) : JourneyBitmap :=
  s.journey_bitmap

/-- Ensure a single tile is loaded from the lazy source into the working
bitmap (map_renderer.rs, MapRenderer ensure_tile_loaded). -/
def MapRenderer.ensure_tile_loaded (s : MapRenderer) (x y : Nat) : MapRenderer :=
  if (x, y) ∈ s.loaded_tiles then s
  else
    let s1 := { s with loaded_tiles := insert (x, y) s.loaded_tiles }
    match s1.lazy_source with
    | none => s1
    | some lazy =>
      match lazy.decompress_tile x y with
      | none => s1
      | some finalized_tile =>
        let ft := prepare_tiles_for_rendering finalized_tile
        match s1.journey_bitmap.tiles (x, y) with
        | some existing_tile =>
          { s1 with journey_bitmap :=
              s1.journey_bitmap.insert_tile (x, y) (existing_tile.merge_from ft) }
        | none =>
          { s1 with journey_bitmap := s1.journey_bitmap.insert_tile (x, y) ft }

/-- Load every tile of the lazy source (map_renderer.rs, MapRenderer
ensure_all_tiles_loaded). -/
def MapRenderer.ensure_all_tiles_loaded (s : MapRenderer) : MapRenderer :=
  match s.lazy_source with
  | none => s
  | some lazy => lazy.tile_keys.foldl (fun st k => st.ensure_tile_loaded k.1 k.2) s

/-- Force all lazy tiles to load, then compute the footprint area,
memoized in current_area (map_renderer.rs, MapRenderer get_current_area).
The external journey_area_utils computation, which also refreshes the
per-tile cache through its mutable argument, is passed in as a function. -/
def MapRenderer.get_current_area (s : MapRenderer)
    (compute_area : JourneyBitmap → AreaCache → Nat × AreaCache) : Nat × MapRenderer :=
  let s1 := s.ensure_all_tiles_loaded
  match s1.current_area with
  | some a => (a, s1)
  | none =>
    let r := compute_area s1.journey_bitmap s1.tile_area_cache
    (r.1, { s1 with current_area := some r.1, tile_area_cache := r.2 })

/-- Lowercase hex digit for a value below 16. -/
def to_hex_digit (n : Nat) : Char :=
  if n < 10 then Char.ofNat (48 + n) else Char.ofNat (87 + n)

/-- Minimal lowercase hex digit string of a natural number, the model of
Rust formatting with the x format specifier. -/
def hex_digits (n : Nat) : List Char :=
  if _h : n < 16 then [to_hex_digit n]
  else hex_digits (n / 16) ++ [to_hex_digit (n % 16)]
termination_by n
decreasing_by exact Nat.div_lt_self (by omega) (by omega)

/-- Current version as a u64 (map_renderer.rs, get_current_version). -/
def MapRenderer.get_current_version (s : MapRenderer) : Nat := s.version

/-- Current version as lowercase hex (map_renderer.rs, get_version_string). -/
def MapRenderer.get_version_string (s : MapRenderer) : String :=
  String.mk (hex_digits s.version)

/-- Numeric value of one hex digit character, accepting both cases. -/
def hex_val (c : Char) : Option Nat :=
  if 48 ≤ c.toNat ∧ c.toNat ≤ 57 then some (c.toNat - 48)
  else if 97 ≤ c.toNat ∧ c.toNat ≤ 102 then some (c.toNat - 87)
  else if 65 ≤ c.toNat ∧ c.toNat ≤ 70 then some (c.toNat - 55)
  else none

/-- One step of u64 base-16 parsing with checked arithmetic; for a leading
minus sign the unsigned checked subtraction only tolerates zero digits. -/
def hex_fold_step (neg : Bool) (acc : Option Nat) (c : Char) : Option Nat :=
  match acc, hex_val c with
  | some a, some d =>
    if neg then (if a = 0 ∧ d = 0 then some 0 else none)
    else if a * 16 + d < 2 ^ 64 then some (a * 16 + d) else none
  | _, _ => none

/-- Model of Rust u64 from_str_radix with radix 16: an optional sign
followed by at least one digit, overflow-checked. -/
def parse_u64_hex (cs : List Char) : Option Nat :=
  match cs with
  | [] => none
  | c :: rest =>
    if c = '+' then
      match rest with
      | [] => none
      | _ => rest.foldl (hex_fold_step false) (some 0)
    else if c = '-' then
      match rest with
      | [] => none
      | _ => rest.foldl (hex_fold_step true) (some 0)
    else cs.foldl (hex_fold_step false) (some 0)

/-- Strip all leading and trailing double-quote characters, the model of
trim_matches in parse_version_string. -/
def trim_quotes (s : String) : List Char :=
  ((s.data.dropWhile (fun c => c = '"')).reverse.dropWhile (fun c => c = '"')).reverse

/-- Tolerant version-string parse (map_renderer.rs, parse_version_string). -/
def MapRenderer.parse_version_string (s : String) : Option Nat :=
  parse_u64_hex (trim_quotes s)

/-- Client cache revalidation (map_renderer.rs, has_changed_since). -/
def MapRenderer.has_changed_since (s : MapRenderer) (client_version : Option String) :
    Option String :=
  match client_version with
  | some v =>
    if MapRenderer.parse_version_string v = some s.version then none
    else some s.get_version_string
  | none => some s.get_version_string

/-- Integer half-open range as a list, the model of a Rust range loop. -/
def rangeInt (a b : Int) : List Int :=
  (List.range (b - a).toNat).map (fun n : Nat => a + (n : Int))

/-- The Rust idiom of a truncated remainder followed by an additive wrap,
written in the source as a double application of the percent operator. -/
def rust_wrap (a m : Int) : Int := ((a.tmod m) + m).tmod m

/-- Insert into a hash-set modelled as a duplicate-free list. -/
def hsInsert (l : List (Nat × Nat)) (t : Nat × Nat) : List (Nat × Nat) :=
  if t ∈ l then l else t :: l

/-- Contribution of a single view tile to the needed-tiles set; the body of
the double loop of compute_needed_bitmap_tiles (map_renderer.rs).
Arithmetic shifts on i64 are modelled as Euclidean division by a power of
two. -/
def needed_step (x y z : Int) (acc : List (Nat × Nat)) (dx dy : Int) : List (Nat × Nat) :=
  let view_x := x + dx
  let view_y := y + dy
  let zoom_diff := z - 9
  let map_width : Int := 512
  if 0 ≤ zoom_diff then
    let bx := Int.ediv view_x (2 ^ zoom_diff.toNat)
    let by_ := Int.ediv view_y (2 ^ zoom_diff.toNat)
    let bx_wrapped := rust_wrap bx map_width
    if 0 ≤ by_ ∧ by_ < map_width then hsInsert acc (bx_wrapped.toNat, by_.toNat) else acc
  else
    let scale : Int := 2 ^ (-zoom_diff).toNat
    let bx_start := view_x * scale
    let by_start := view_y * scale
    (rangeInt by_start (by_start + scale)).foldl (fun a2 bby =>
      (rangeInt bx_start (bx_start + scale)).foldl (fun a3 bbx =>
        let wrapped := rust_wrap bbx map_width
        if 0 ≤ bby ∧ bby < map_width then hsInsert a3 (wrapped.toNat, bby.toNat) else a3)
        a2) acc

/-- Compute which zoom-9 bitmap tiles are needed for a viewport
(map_renderer.rs, compute_needed_bitmap_tiles). -/
def compute_needed_bitmap_tiles (x y : Int) (z : Int) (width height : Int) :
    List (Nat × Nat) :=
  (rangeInt 0 height).foldl (fun acc dy =>
    (rangeInt 0 width).foldl (fun acc2 dx => needed_step x y z acc2 dx dy) acc) []

/-- Signature of the external tile shader: origin offsets, the bitmap, the
wrapped view-tile coordinates, the zoom and the buffer size power, giving
a list of pixel coordinates.  The shader itself is out of scope and every
statement is quantified over it. -/
abbrev Shader := Int → Int → JourneyBitmap → Int → Int → Int → Int → List (Int × Int)

/-- Output of rendering.  Modelled from the spec: journey_kernel TileBuffer
with one pixel list per output view tile. -/
structure TileBuffer where
  x : Int
  y : Int
  z : Int
  width : Int
  height : Int
  buffer_size_power : Int
  tile_data : List (List (Nat × Nat))
deriving DecidableEq

/-- Row-major index of a view tile inside the buffer.  Modelled from the
spec: journey_kernel TileBuffer calculate_tile_index. -/
def TileBuffer.calculate_tile_index (b : TileBuffer) (tile_x tile_y : Int) : Nat :=
  ((tile_y - b.y) * b.width + (tile_x - b.x)).toNat

/-- Keep the shader pixels lying inside the buffer tile and narrow them to
u16, in order (map_renderer.rs, the pixel loop of
tile_buffer_from_journey_bitmap). -/
def pixel_filter (bsp : Int) (pixels : List (Int × Int)) : List (Nat × Nat) :=
  pixels.filterMap (fun p =>
    if 0 ≤ p.1 ∧ p.1 < 2 ^ bsp.toNat ∧ 0 ≤ p.2 ∧ p.2 < 2 ^ bsp.toNat then
      some (p.1.toNat, p.2.toNat)
    else none)

/-- Shade one view tile and append its pixels into the buffer; the body of
the double loop of tile_buffer_from_journey_bitmap (map_renderer.rs). -/
def shade_step (sh : Shader) (bm : JourneyBitmap) (zoom_coefficient : Int)
    (b : TileBuffer) (tile_x tile_y : Int) : Except String TileBuffer :=
  let tile_x_rounded := rust_wrap tile_x zoom_coefficient
  let pixels := sh 0 0 bm tile_x_rounded tile_y b.z b.buffer_size_power
  let idx := b.calculate_tile_index tile_x tile_y
  if b.tile_data.length ≤ idx then
    .error ("Index out of bounds: " ++ toString idx ++ " >= " ++ toString b.tile_data.length)
  else
    .ok { b with tile_data :=
      b.tile_data.set idx ((b.tile_data.getD idx []) ++ pixel_filter b.buffer_size_power pixels) }

/-- Create a TileBuffer from a journey bitmap for a range of tiles
(map_renderer.rs, tile_buffer_from_journey_bitmap).  All parameters are
validated before any shading. -/
def tile_buffer_from_journey_bitmap (sh : Shader) (bm : JourneyBitmap)
    (x y z width height buffer_size_power : Int) : Except String TileBuffer :=
  if width ≤ 0 ∨ height ≤ 0 then
    .error ("Invalid dimensions: width=" ++ toString width ++ ", height=" ++ toString height)
  else if 20 < width ∨ 20 < height then
    .error ("Dimensions too large: width=" ++ toString width ++ ", height=" ++
      toString height ++ " (max: 20x20)")
  else if z < 0 ∨ 25 < z then
    .error ("Invalid zoom level: " ++ toString z ++ " (must be 0-25)")
  else if buffer_size_power < 6 ∨ 11 < buffer_size_power then
    .error ("Invalid buffer_size_power: " ++ toString buffer_size_power ++
      " (must be 6-11, corresponding to 64-2048 pixel tiles)")
  else
    let zoom_coefficient : Int := 2 ^ z.toNat
    if y < 0 ∨ zoom_coefficient ≤ y then
      .error ("Invalid y coordinate: " ++ toString y ++ " (must be 0-" ++
        toString (zoom_coefficient - 1) ++ ")")
    else
      let b0 : TileBuffer :=
        ⟨x, y, z, width, height, buffer_size_power, List.replicate (width * height).toNat []⟩
      (rangeInt y (y + height)).foldl (fun acc tile_y =>
        (rangeInt x (x + width)).foldl (fun acc2 tile_x =>
          acc2.bind (fun b => shade_step sh bm zoom_coefficient b tile_x tile_y)) acc)
        (.ok b0)

/-- Pre-load the needed tiles from the lazy source, then rasterize
(map_renderer.rs, MapRenderer get_tile_buffer).  Returns the new renderer
state together with the result. -/
def MapRenderer.get_tile_buffer (s : MapRenderer) (sh : Shader)
    (x y z width height buffer_size_power : Int) : MapRenderer × Except String TileBuffer :=
  let s1 := match s.lazy_source with
    | some _ =>
      (compute_needed_bitmap_tiles x y z width height).foldl
        (fun st k => st.ensure_tile_loaded k.1 k.2) s
    | none => s
  (s1, tile_buffer_from_journey_bitmap sh s1.journey_bitmap x y z width height
    buffer_size_power)

/-- Journey kinds (journey_header.rs, modelled from the spec). -/
inductive JourneyKind where
  | defaultKind
  | flight
deriving DecidableEq

/-- Cache layer identifiers (cache_db.rs, modelled from the spec). -/
inductive LayerKind where
  | journeyKind (k : JourneyKind)
  | all
deriving DecidableEq

/-- One track segment: an ordered list of points.  The floating point
longitude and latitude pairs are kept abstract as a coordinate type. -/
structure TrackSegment (C : Type) where
  track_points : List C

/-- An ordered list of track segments (journey_vector.rs, modelled from the
spec). -/
structure JourneyVector (C : Type) where
  track_segments : List (TrackSegment C)

/-- Stored journey artifact: a raster bitmap or a polyline vector
(journey_data.rs, modelled from the spec). -/
inductive JourneyData (C : Type) where
  | bitmap (b : JourneyBitmap)
  | vector (v : JourneyVector C)

/-- A journey header together with its data; dates are abstracted to Int. -/
structure JourneyEntry (C : Type) where
  date : Int
  journey_kind : JourneyKind
  data : JourneyData C

/-- A read transaction over the main journey store.  Modelled from the
spec: it enumerates journey headers by date and yields their data. -/
structure Txn (C : Type) where
  journeys : List (JourneyEntry C)

/-- Enumerate journeys within an inclusive optional date range.  Modelled
from the spec: main_db query_journeys. -/
def Txn.query_journeys {C : Type} (txn : Txn C) (from_date to_date : Option Int) :
    List (JourneyEntry C) :=
  txn.journeys.filter (fun e =>
    (match from_date with | none => true | some f => decide (f ≤ e.date)) &&
    (match to_date with | none => true | some t => decide (e.date ≤ t)))

/-- Rasterize a journey vector into a bitmap, one add_line call per point
with the saturating-subtraction previous index (merged_journey_builder.rs,
add_journey_vector_to_journey_bitmap).  The external
JourneyBitmap add_line rasterizer is kept abstract as the addLine
argument, over an arbitrary accumulator type. -/
def add_journey_vector_to_journey_bitmap {B C : Type} (addLine : B → C → C → B)
    (b : B) (v : JourneyVector C) : B :=
  v.track_segments.foldl (fun acc seg =>
    (List.range seg.track_points.length).foldl (fun acc2 i =>
      match seg.track_points.get? (i - 1), seg.track_points.get? i with
      | some prev, some curr => addLine acc2 prev curr
      | _, _ => acc2) acc) b

/-- Merge all journeys of a date range and kind into one bitmap
(merged_journey_builder.rs, get_range_internal). -/
def get_range_internal {C : Type} (addLine : JourneyBitmap → C → C → JourneyBitmap)
    (txn : Txn C) (from_date to_date : Option Int) (kind : Option JourneyKind) :
    JourneyBitmap :=
  (txn.query_journeys from_date to_date).foldl (fun acc e =>
    let should_include := match kind with
      | none => true
      | some k => decide (k = e.journey_kind)
    if should_include then
      match e.data with
      | .bitmap b => acc.merge b
      | .vector v => add_journey_vector_to_journey_bitmap addLine acc v
    else acc) JourneyBitmap.new

/-- State of the layer cache: an optional aggregated bitmap per layer kind.
Modelled from the spec: CacheDb stores one blob per layer identifier. -/
abbrev JourneyCacheState := LayerKind → Option JourneyBitmap

/-- Store a computed bitmap under a layer kind. -/
def cache_insert (c : JourneyCacheState) (lk : LayerKind) (b : JourneyBitmap) :
    JourneyCacheState :=
  fun k => if k = lk then some b else c k

/-- Recursion measure: the All layer is computed from the kind layers. -/
def LayerKind.rank : LayerKind → Nat
  | .journeyKind _ => 0
  | .all => 1

/-- Fetch the aggregated bitmap of a layer through the cache
(merged_journey_builder.rs, get_all_finalized_journeys).  The hit or miss
logic of the external CacheDb get_full_journey_cache_or_compute, modelled
from the spec, is inlined: on a hit return the cached bitmap, on a miss
run the compute (which for the All layer recursively fetches and thereby
populates both kind sub-layers), store the result and return it.  The
case split on the layer kind is lifted to the top so that the recursion
is accepted; each branch performs the identical hit check first. -/
def get_all_finalized_journeys {C : Type} (addLine : JourneyBitmap → C → C → JourneyBitmap)
    (txn : Txn C) (cache : JourneyCacheState) : LayerKind → JourneyCacheState × JourneyBitmap
  | .journeyKind k =>
    match cache (.journeyKind k) with
    | some b => (cache, b)
    | none =>
      let b := get_range_internal addLine txn none none (some k)
      (cache_insert cache (.journeyKind k) b, b)
  | .all =>
    match cache .all with
    | some b => (cache, b)
    | none =>
      let r1 := get_all_finalized_journeys addLine txn cache (.journeyKind .defaultKind)
      let r2 := get_all_finalized_journeys addLine txn r1.1 (.journeyKind .flight)
      let b := r1.2.merge r2.2
      (cache_insert r2.1 .all b, b)
termination_by lk => lk.rank
decreasing_by all_goals simp [LayerKind.rank]

/-- Spec reading of the per-view-tile contribution to the needed-tiles set:
one shifted tile when zoomed in, a scale-by-scale block when zoomed out,
with x wrapped modulo 512 and y clipped to the 512 rows. -/
def view_tile_contrib (z vx vy : Int) (t : Nat × Nat) : Prop :=
  let zoom_diff := z - 9
  if 0 ≤ zoom_diff then
    let bx := Int.ediv vx (2 ^ zoom_diff.toNat)
    let by_ := Int.ediv vy (2 ^ zoom_diff.toNat)
    0 ≤ by_ ∧ by_ < 512 ∧ t = ((bx.emod 512).toNat, by_.toNat)
  else
    let scale : Int := 2 ^ (-zoom_diff).toNat
    ∃ bbx bby : Int,
      vx * scale ≤ bbx ∧ bbx < vx * scale + scale ∧
      vy * scale ≤ bby ∧ bby < vy * scale + scale ∧
      0 ≤ bby ∧ bby < 512 ∧ t = ((bbx.emod 512).toNat, bby.toNat)

/-- Spec reading of the needed-tiles set of a whole viewport: the union of
the contributions of its view tiles. -/
def needed_tiles_spec (x y z width height : Int) (t : Nat × Nat) : Prop :=
  ∃ dx dy : Int, 0 ≤ dx ∧ dx < width ∧ 0 ≤ dy ∧ dy < height ∧
    view_tile_contrib z (x + dx) (y + dy) t

/-- Spec reading of the add_line call sequence of one track segment: the
first point paired with itself, then every consecutive pair. -/
def segment_line_calls {C : Type} (pts : List C) : List (C × C) :=
  match pts with
  | [] => []
  | p :: rest => (p, p) :: List.zip (p :: rest) rest

/-- Spec reading of the add_line call sequence of a whole journey vector:
segments are independent, no call crosses a segment boundary. -/
def journey_line_calls {C : Type} (v : JourneyVector C) : List (C × C) :=
  v.track_segments.flatMap (fun seg => segment_line_calls seg.track_points)

/-- Cache states whose All entry, when present, is the merge of present
entries of the two kind sub-layers; every cache reachable from the empty
cache through the fetch operation has this shape. -/
def cache_coherent (c : JourneyCacheState) : Prop :=
  ∀ a, c .all = some a →
    ∃ d f, c (.journeyKind .defaultKind) = some d ∧
      c (.journeyKind .flight) = some f ∧ a = d.merge f

/-- A shader that lights no pixel, used for concrete evaluations. -/
def null_shader : Shader := fun _ _ _ _ _ _ _ => []

/-- A concrete tile with a single lit bit. -/
def sample_tile : Tile := {(3, 4)}

/-- A concrete well-formed one-tile blob. -/
def sample_blob : Blob := [((0, 0), TilePayload.tile sample_tile)]

/-- A concrete blob whose only payload is corrupt. -/
def corrupt_blob : Blob := [((0, 0), TilePayload.corrupt)]

/-- A lazy source over the well-formed sample blob. -/
def sample_source : LazyTileSource := ⟨sample_blob⟩

/-- A lazy source over the corrupt sample blob. -/
def corrupt_source : LazyTileSource := ⟨corrupt_blob⟩

/-- A renderer set up lazily over the sample source. -/
def sample_renderer : MapRenderer :=
  (MapRenderer.new JourneyBitmap.new).replace_lazy sample_source JourneyBitmap.new

/-- A renderer set up lazily over the corrupt source. -/
def corrupt_renderer : MapRenderer :=
  (MapRenderer.new JourneyBitmap.new).replace_lazy corrupt_source JourneyBitmap.new

theorem ensure_tile_loaded_frame (s : MapRenderer) (x y : Nat) :
    (s.ensure_tile_loaded x y).version = s.version ∧
    (s.ensure_tile_loaded x y).lazy_source = s.lazy_source ∧
    (s.ensure_tile_loaded x y).tile_area_cache = s.tile_area_cache ∧
    (s.ensure_tile_loaded x y).current_area = s.current_area := by
  unfold MapRenderer.ensure_tile_loaded
  dsimp only
  repeat' split
  all_goals exact ⟨rfl, rfl, rfl, rfl⟩

theorem ensure_fold_frame (l : List (Nat × Nat)) (s : MapRenderer) :
    ((l.foldl (fun st k => st.ensure_tile_loaded k.1 k.2) s)).version = s.version ∧
    ((l.foldl (fun st k => st.ensure_tile_loaded k.1 k.2) s)).lazy_source = s.lazy_source ∧
    ((l.foldl (fun st k => st.ensure_tile_loaded k.1 k.2) s)).tile_area_cache
      = s.tile_area_cache ∧
    ((l.foldl (fun st k => st.ensure_tile_loaded k.1 k.2) s)).current_area
      = s.current_area := by
  induction l generalizing s with
  | nil => exact ⟨rfl, rfl, rfl, rfl⟩
  | cons a l ih =>
    simp only [List.foldl_cons]
    obtain ⟨h1, h2, h3, h4⟩ := ih (s.ensure_tile_loaded a.1 a.2)
    obtain ⟨g1, g2, g3, g4⟩ := ensure_tile_loaded_frame s a.1 a.2
    exact ⟨h1.trans g1, h2.trans g2, h3.trans g3, h4.trans g4⟩

theorem ensure_all_frame (s : MapRenderer) :
    s.ensure_all_tiles_loaded.version = s.version ∧
    s.ensure_all_tiles_loaded.lazy_source = s.lazy_source ∧
    s.ensure_all_tiles_loaded.tile_area_cache = s.tile_area_cache ∧
    s.ensure_all_tiles_loaded.current_area = s.current_area := by
  unfold MapRenderer.ensure_all_tiles_loaded
  split
  · exact ⟨rfl, rfl, rfl, rfl⟩
  · exact ensure_fold_frame _ _

theorem get_tile_buffer_version (s : MapRenderer) (sh : Shader) (x y z w h bsp : Int) :
    ((s.get_tile_buffer sh x y z w h bsp).1).version = s.version := by
  unfold MapRenderer.get_tile_buffer
  dsimp only
  split
  · exact (ensure_fold_frame _ _).1
  · rfl

theorem get_current_area_version (s : MapRenderer)
    (ca : JourneyBitmap → AreaCache → Nat × AreaCache) :
    ((s.get_current_area ca).2).version = s.version := by
  unfold MapRenderer.get_current_area
  dsimp only
  split
  · exact (ensure_all_frame s).1
  · exact (ensure_all_frame s).1

/-- C5: the 64-bit renderer version is wrap-incremented by every
content-mutating operation (replace, replace_lazy, update; new starts it
at zero) and by nothing else: lazy tile materialization, dropping the
lazy source and the read accessors leave it unchanged. -/
theorem c5_version_semantics (s : MapRenderer) (b : JourneyBitmap) (src : LazyTileSource)
    (f : JourneyBitmap → JourneyBitmap × List (Nat × Nat)) (sh : Shader)
    (ca : JourneyBitmap → AreaCache → Nat × AreaCache)
    (x y z w h bsp : Int) (tx ty : Nat) :
    (MapRenderer.new b).version = 0 ∧
    (s.replace b).version = (s.version + 1) % 2 ^ 64 ∧
    (s.replace_lazy src b).version = (s.version + 1) % 2 ^ 64 ∧
    (s.update f).version = (s.version + 1) % 2 ^ 64 ∧
    s.drop_lazy_source.version = s.version ∧
    (s.ensure_tile_loaded tx ty).version = s.version ∧
    s.ensure_all_tiles_loaded.version = s.version ∧
    ((s.get_tile_buffer sh x y z w h bsp).1).version = s.version ∧
    ((s.get_current_area ca).2).version = s.version :=
  ⟨rfl, rfl, rfl, rfl, rfl, (ensure_tile_loaded_frame s tx ty).1, (ensure_all_frame s).1,
    get_tile_buffer_version s sh x y z w h bsp, get_current_area_version s ca⟩

theorem area_evict_fold (l : List (Nat × Nat)) (c : AreaCache) (k : Nat × Nat) :
    (l.foldl (fun (c : AreaCache) pos => fun j => if j = pos then none else c j) c) k =
      if k ∈ l then none else c k := by
  induction l generalizing c with
  | nil => simp
  | cons p l ih =>
    simp only [List.foldl_cons, ih, List.mem_cons]
    by_cases h1 : k ∈ l
    · simp [h1]
    · by_cases h2 : k = p <;> simp [h1, h2]

theorem get_current_area_fresh (s : MapRenderer)
    (ca : JourneyBitmap → AreaCache → Nat × AreaCache) (h : s.current_area = none) :
    (s.get_current_area ca).1 =
      (ca s.ensure_all_tiles_loaded.journey_bitmap
        s.ensure_all_tiles_loaded.tile_area_cache).1 := by
  have h2 : s.ensure_all_tiles_loaded.current_area = none := (ensure_all_frame s).2.2.2.trans h
  unfold MapRenderer.get_current_area
  dsimp only
  split
  · next a heq => rw [h2] at heq; exact absurd heq (by simp)
  · rfl

/-- C10: replace and replace_lazy clear the memoized area and the whole
per-tile area cache, update clears the memoized area and evicts exactly
the reported changed tiles, and a get_current_area call right after any
of these mutations computes the area afresh instead of returning a
previously memoized value. -/
theorem c10_area_invalidation (s : MapRenderer) (b : JourneyBitmap) (src : LazyTileSource)
    (f : JourneyBitmap → JourneyBitmap × List (Nat × Nat))
    (ca : JourneyBitmap → AreaCache → Nat × AreaCache) (k : Nat × Nat) :
    (s.replace b).current_area = none ∧
    (s.replace b).tile_area_cache k = none ∧
    (s.replace_lazy src b).current_area = none ∧
    (s.replace_lazy src b).tile_area_cache k = none ∧
    (s.update f).current_area = none ∧
    (s.update f).tile_area_cache k =
      (if k ∈ (f s.journey_bitmap).2 then none else s.tile_area_cache k) ∧
    ((s.replace b).get_current_area ca).1 =
      (ca (s.replace b).ensure_all_tiles_loaded.journey_bitmap
        (s.replace b).ensure_all_tiles_loaded.tile_area_cache).1 ∧
    ((s.replace_lazy src b).get_current_area ca).1 =
      (ca (s.replace_lazy src b).ensure_all_tiles_loaded.journey_bitmap
        (s.replace_lazy src b).ensure_all_tiles_loaded.tile_area_cache).1 ∧
    ((s.update f).get_current_area ca).1 =
      (ca (s.update f).ensure_all_tiles_loaded.journey_bitmap
        (s.update f).ensure_all_tiles_loaded.tile_area_cache).1 :=
  ⟨rfl, rfl, rfl, rfl, rfl, area_evict_fold _ _ _,
    get_current_area_fresh _ _ rfl, get_current_area_fresh _ _ rfl,
    get_current_area_fresh _ _ rfl⟩

theorem hex_val_to_hex_digit (d : Nat) (hd : d < 16) : hex_val (to_hex_digit d) = some d := by
  interval_cases d <;> decide

theorem to_hex_digit_ne (d : Nat) (hd : d < 16) :
    to_hex_digit d ≠ '+' ∧ to_hex_digit d ≠ '-' ∧ to_hex_digit d ≠ '"' := by
  interval_cases d <;> exact ⟨by decide, by decide, by decide⟩

theorem hex_digits_mem (v : Nat) : ∀ c ∈ hex_digits v, ∃ d, d < 16 ∧ c = to_hex_digit d := by
  induction v using Nat.strong_induction_on with
  | _ v ih =>
    intro c hc
    unfold hex_digits at hc
    by_cases h : v < 16
    · simp only [h, dite_true, List.mem_singleton] at hc
      exact ⟨v, h, hc⟩
    · simp only [h, dite_false, List.mem_append, List.mem_singleton] at hc
      rcases hc with hc | hc
      · exact ih (v / 16) (Nat.div_lt_self (by omega) (by omega)) c hc
      · exact ⟨v % 16, Nat.mod_lt _ (by omega), hc⟩

theorem hex_digits_ne_nil (v : Nat) : hex_digits v ≠ [] := by
  unfold hex_digits
  by_cases h : v < 16 <;> simp [h]

theorem foldl_hex (v : Nat) (hv : v < 2 ^ 64) :
    (hex_digits v).foldl (hex_fold_step false) (some 0) = some v := by
  induction v using Nat.strong_induction_on with
  | _ v ih =>
    unfold hex_digits
    by_cases h : v < 16
    · simp only [h, dite_true, List.foldl_cons, List.foldl_nil, hex_fold_step,
        hex_val_to_hex_digit v h]
      split_ifs <;> first | rfl | omega | simp_all
    · simp only [h, dite_false, List.foldl_append, List.foldl_cons, List.foldl_nil]
      have hd : v / 16 < v := Nat.div_lt_self (by omega) (by omega)
      rw [ih (v / 16) hd (by omega)]
      simp only [hex_fold_step, hex_val_to_hex_digit (v % 16) (Nat.mod_lt _ (by omega))]
      have hval : v / 16 * 16 + v % 16 = v := by omega
      rw [hval]
      split_ifs <;> first | rfl | omega | simp_all

theorem dropWhile_quote_of_no_quote (l : List Char) (h : ∀ c ∈ l, c ≠ '"') :
    l.dropWhile (fun c => c = '"') = l := by
  cases l with
  | nil => rfl
  | cons c cs =>
    rw [List.dropWhile_cons]
    simp [h c (List.mem_cons_self c cs)]

theorem trim_quotes_of_no_quote (l : List Char) (h : ∀ c ∈ l, c ≠ '"') :
    trim_quotes (String.mk l) = l := by
  unfold trim_quotes
  have hd : (String.mk l).data = l := rfl
  rw [hd, dropWhile_quote_of_no_quote l h,
    dropWhile_quote_of_no_quote l.reverse (fun c hc => h c (List.mem_reverse.mp hc)),
    List.reverse_reverse]

theorem parse_roundtrip (v : Nat) (hv : v < 2 ^ 64) :
    parse_u64_hex (hex_digits v) = some v := by
  obtain ⟨c, rest, hcr⟩ := List.exists_cons_of_ne_nil (hex_digits_ne_nil v)
  have hc : c ∈ hex_digits v := by rw [hcr]; exact List.mem_cons_self c rest
  obtain ⟨d, hd, hcd⟩ := hex_digits_mem v c hc
  have hplus : c ≠ '+' := hcd ▸ (to_hex_digit_ne d hd).1
  have hminus : c ≠ '-' := hcd ▸ (to_hex_digit_ne d hd).2.1
  rw [hcr]
  unfold parse_u64_hex
  simp only [hplus, hminus, if_false]
  rw [← hcr]
  exact foldl_hex v hv

theorem version_roundtrip (s : MapRenderer) (hv : s.version < 2 ^ 64) :
    MapRenderer.parse_version_string s.get_version_string = some s.version := by
  unfold MapRenderer.parse_version_string MapRenderer.get_version_string
  rw [trim_quotes_of_no_quote _ (fun c hc => by
    obtain ⟨d, hd, hcd⟩ := hex_digits_mem s.version c hc
    exact hcd ▸ (to_hex_digit_ne d hd).2.2)]
  exact parse_roundtrip s.version hv

/-- C8: the hex version string round-trips, so revalidating against the
current version yields None; after a version-bumping operation,
revalidating a stale string yields Some of the new hex string. -/
theorem c8_version_revalidation (s : MapRenderer) (b : JourneyBitmap) (src : LazyTileSource)
    (f : JourneyBitmap → JourneyBitmap × List (Nat × Nat)) (hv : s.version < 2 ^ 64) :
    s.has_changed_since (some s.get_version_string) = none ∧
    (s.replace b).has_changed_since (some s.get_version_string)
      = some (s.replace b).get_version_string ∧
    (s.replace_lazy src b).has_changed_since (some s.get_version_string)
      = some (s.replace_lazy src b).get_version_string ∧
    (s.update f).has_changed_since (some s.get_version_string)
      = some (s.update f).get_version_string := by
  have hrt := version_roundtrip s hv
  have hbump : s.version ≠ (s.version + 1) % 2 ^ 64 := by omega
  refine ⟨?_, ?_, ?_, ?_⟩
  · unfold MapRenderer.has_changed_since
    dsimp only
    rw [hrt]
    simp
  · unfold MapRenderer.has_changed_since
    dsimp only
    rw [hrt]
    have hver : (s.replace b).version = (s.version + 1) % 2 ^ 64 := rfl
    rw [hver]
    have hne : ¬(some s.version = some ((s.version + 1) % 2 ^ 64)) := by
      simp only [Option.some.injEq]
      omega
    rw [if_neg hne]
  · unfold MapRenderer.has_changed_since
    dsimp only
    rw [hrt]
    have hver : (s.replace_lazy src b).version = (s.version + 1) % 2 ^ 64 := rfl
    rw [hver]
    have hne : ¬(some s.version = some ((s.version + 1) % 2 ^ 64)) := by
      simp only [Option.some.injEq]
      omega
    rw [if_neg hne]
  · unfold MapRenderer.has_changed_since
    dsimp only
    rw [hrt]
    have hver : (s.update f).version = (s.version + 1) % 2 ^ 64 := rfl
    rw [hver]
    have hne : ¬(some s.version = some ((s.version + 1) % 2 ^ 64)) := by
      simp only [Option.some.injEq]
      omega
    rw [if_neg hne]

/-- Witness for C8 at a concrete renderer state. -/
theorem c8_version_revalidation_witness :
    sample_renderer.version < 2 ^ 64 ∧
    (sample_renderer.has_changed_since (some sample_renderer.get_version_string) = none ∧
    (sample_renderer.replace JourneyBitmap.new).has_changed_since
        (some sample_renderer.get_version_string)
      = some (sample_renderer.replace JourneyBitmap.new).get_version_string ∧
    (sample_renderer.replace_lazy sample_source JourneyBitmap.new).has_changed_since
        (some sample_renderer.get_version_string)
      = some (sample_renderer.replace_lazy sample_source JourneyBitmap.new).get_version_string ∧
    (sample_renderer.update (fun bm => (bm, []))).has_changed_since
        (some sample_renderer.get_version_string)
      = some (sample_renderer.update (fun bm => (bm, []))).get_version_string) :=
  ⟨by decide, c8_version_revalidation sample_renderer JourneyBitmap.new sample_source
    (fun bm => (bm, [])) (by decide)⟩

theorem mem_hsInsert (l : List (Nat × Nat)) (t x : Nat × Nat) :
    x ∈ hsInsert l t ↔ x ∈ l ∨ x = t := by
  unfold hsInsert
  by_cases h : t ∈ l
  · rw [if_pos h]
    constructor
    · exact Or.inl
    · rintro (hx | rfl)
      · exact hx
      · exact h
  · rw [if_neg h, List.mem_cons]
    tauto

theorem mem_foldl_step {α : Type} (P : α → (Nat × Nat) → Prop)
    (step : List (Nat × Nat) → α → List (Nat × Nat))
    (H : ∀ acc a x, x ∈ step acc a ↔ x ∈ acc ∨ P a x)
    (l : List α) (init : List (Nat × Nat)) (x : Nat × Nat) :
    x ∈ l.foldl step init ↔ x ∈ init ∨ ∃ a ∈ l, P a x := by
  induction l generalizing init with
  | nil => simp
  | cons hd tl ih =>
    rw [List.foldl_cons, ih, H]
    constructor
    · rintro ((hx | hp) | ⟨a, ha, hp⟩)
      · exact Or.inl hx
      · exact Or.inr ⟨hd, List.mem_cons_self hd tl, hp⟩
      · exact Or.inr ⟨a, List.mem_cons_of_mem hd ha, hp⟩
    · rintro (hx | ⟨a, ha, hp⟩)
      · exact Or.inl (Or.inl hx)
      · rcases List.mem_cons.mp ha with rfl | ha2
        · exact Or.inl (Or.inr hp)
        · exact Or.inr ⟨a, ha2, hp⟩

theorem mem_rangeInt {a b t : Int} : t ∈ rangeInt a b ↔ a ≤ t ∧ t < b := by
  unfold rangeInt
  simp only [List.mem_map, List.mem_range]
  constructor
  · rintro ⟨i, hi, rfl⟩
    omega
  · intro h
    exact ⟨(t - a).toNat, by omega, by omega⟩

theorem rangeInt_length (a b : Int) : (rangeInt a b).length = (b - a).toNat := by
  unfold rangeInt
  rw [List.length_map, List.length_range]

theorem neg_lt_tmod (a : Int) {m : Int} (hm : 0 < m) : -m < a.tmod m := by
  cases a with
  | ofNat n =>
    have h0 : 0 ≤ Int.tmod (Int.ofNat n) m :=
      Int.tmod_nonneg m (Int.ofNat_nonneg n)
    omega
  | negSucc n =>
    cases m with
    | ofNat k =>
      have hk : 0 < k := by
        rw [Int.ofNat_eq_natCast] at hm
        exact_mod_cast hm
      have heq : Int.tmod (Int.negSucc n) (Int.ofNat k) = -Int.ofNat ((n + 1) % k) := rfl
      have hlt : (n + 1) % k < k := Nat.mod_lt _ hk
      rw [heq, Int.ofNat_eq_natCast, Int.ofNat_eq_natCast]
      omega
    | negSucc k =>
      have := Int.negSucc_lt_zero k
      omega

theorem rust_wrap_eq_emod (a : Int) {m : Int} (hm : 0 < m) : rust_wrap a m = a.emod m := by
  unfold rust_wrap
  have h1 : a.tmod m < m := Int.tmod_lt_of_pos a hm
  have h2 : -m < a.tmod m := neg_lt_tmod a hm
  have h3 : 0 ≤ a.tmod m + m := by omega
  rw [Int.tmod_eq_emod h3 hm.le]
  have h4 : (a.tmod m + m) % m = a.tmod m % m := by
    have := Int.add_mul_emod_self_left (a := a.tmod m) (b := m) (c := 1)
    rwa [Int.mul_one] at this
  rw [h4, Int.tmod_def, Int.sub_emod, Int.mul_emod_right, Int.sub_zero,
    Int.emod_emod_of_dvd a dvd_rfl]
  rfl

theorem mem_needed_step (x y z : Int) (acc : List (Nat × Nat)) (dx dy : Int) (t : Nat × Nat) :
    t ∈ needed_step x y z acc dx dy ↔ t ∈ acc ∨ view_tile_contrib z (x + dx) (y + dy) t := by
  have hw : ∀ a : Int, rust_wrap a 512 = a.emod 512 := fun a => rust_wrap_eq_emod a (by norm_num)
  unfold needed_step view_tile_contrib
  dsimp only
  by_cases hz : 0 ≤ z - 9
  · rw [if_pos hz, if_pos hz]
    by_cases hc : 0 ≤ Int.ediv (y + dy) (2 ^ (z - 9).toNat) ∧
        Int.ediv (y + dy) (2 ^ (z - 9).toNat) < 512
    · rw [if_pos hc, mem_hsInsert, hw]
      constructor
      · rintro (h | rfl)
        · exact Or.inl h
        · exact Or.inr ⟨hc.1, hc.2, rfl⟩
      · rintro (h | ⟨h1, h2, h3⟩)
        · exact Or.inl h
        · exact Or.inr h3
    · rw [if_neg hc]
      constructor
      · exact Or.inl
      · rintro (h | ⟨h1, h2, h3⟩)
        · exact h
        · exact absurd ⟨h1, h2⟩ hc
  · rw [if_neg hz, if_neg hz]
    rw [mem_foldl_step
      (fun bby u => ∃ bbx ∈ rangeInt ((x + dx) * 2 ^ (-(z - 9)).toNat)
          ((x + dx) * 2 ^ (-(z - 9)).toNat + 2 ^ (-(z - 9)).toNat),
        (0 ≤ bby ∧ bby < 512) ∧ u = ((rust_wrap bbx 512).toNat, bby.toNat))
      _
      (fun a2 bby u => mem_foldl_step
        (fun bbx u => (0 ≤ bby ∧ bby < 512) ∧ u = ((rust_wrap bbx 512).toNat, bby.toNat))
        _
        (fun a3 bbx u => by
          by_cases hb : 0 ≤ bby ∧ bby < 512
          · rw [if_pos hb, mem_hsInsert]
            constructor
            · rintro (h | rfl)
              · exact Or.inl h
              · exact Or.inr ⟨hb, rfl⟩
            · rintro (h | ⟨h1, h2⟩)
              · exact Or.inl h
              · exact Or.inr h2
          · rw [if_neg hb]
            constructor
            · exact Or.inl
            · rintro (h | ⟨h1, h2⟩)
              · exact h
              · exact absurd h1 hb)
        _ a2 u)
      _ acc t]
    simp only [hw, mem_rangeInt]
    constructor
    · rintro (h | ⟨bby, hby, bbx, hbx, hcond, rfl⟩)
      · exact Or.inl h
      · exact Or.inr ⟨bbx, bby, hbx.1, hbx.2, hby.1, hby.2, hcond.1, hcond.2, rfl⟩
    · rintro (h | ⟨bbx, bby, h1, h2, h3, h4, h5, h6, rfl⟩)
      · exact Or.inl h
      · exact Or.inr ⟨bby, ⟨h3, h4⟩, bbx, ⟨h1, h2⟩, ⟨h5, h6⟩, rfl⟩

/-- C4: membership in the needed-tiles set computed by the renderer matches
the spec description: with nonnegative zoom difference each view tile
contributes one shifted tile, x wrapped modulo 512 and y clipped to the
512 rows; with negative zoom difference each view tile contributes a
scale-by-scale block with the same wrap and clip rules. -/
theorem c4_needed_bitmap_tiles (x y z width height : Int) (t : Nat × Nat) :
    t ∈ compute_needed_bitmap_tiles x y z width height ↔
      needed_tiles_spec x y z width height t := by
  unfold compute_needed_bitmap_tiles needed_tiles_spec
  rw [mem_foldl_step
    (fun dy u => ∃ dx ∈ rangeInt 0 width, view_tile_contrib z (x + dx) (y + dy) u)
    _
    (fun acc dy u => mem_foldl_step
      (fun dx u => view_tile_contrib z (x + dx) (y + dy) u)
      _
      (fun acc2 dx u => mem_needed_step x y z acc2 dx dy u)
      (rangeInt 0 width) acc u)
    (rangeInt 0 height) [] t]
  simp only [List.not_mem_nil, false_or, mem_rangeInt]
  constructor
  · rintro ⟨dy, hdy, dx, hdx, hc⟩
    exact ⟨dx, dy, hdx.1, hdx.2, hdy.1, hdy.2, hc⟩
  · rintro ⟨dx, dy, h1, h2, h3, h4, hc⟩
    exact ⟨dy, ⟨h3, h4⟩, dx, ⟨h1, h2⟩, hc⟩

theorem tail_calls_fold {B C : Type} (addLine : B → C → C → B) :
    ∀ (rest : List C) (pre : List C) (prev : C) (acc : B),
      (List.range' (pre.length + 1) rest.length).foldl
        (fun acc2 i =>
          match (pre ++ prev :: rest).get? (i - 1), (pre ++ prev :: rest).get? i with
          | some p, some c => addLine acc2 p c
          | _, _ => acc2) acc
      = (List.zip (prev :: rest) rest).foldl (fun a pq => addLine a pq.1 pq.2) acc := by
  intro rest
  induction rest with
  | nil => intro pre prev acc; rfl
  | cons c cs ih =>
    intro pre prev acc
    simp only [List.length_cons]
    rw [List.range'_succ]
    simp only [List.foldl_cons]
    have h1 : (pre ++ prev :: c :: cs).get? (pre.length + 1 - 1) = some prev := by
      simp only [Nat.add_sub_cancel, List.get?_eq_getElem?]
      rw [List.getElem?_append_right (Nat.le_refl pre.length)]
      simp
    have h2 : (pre ++ prev :: c :: cs).get? (pre.length + 1) = some c := by
      simp only [List.get?_eq_getElem?]
      rw [List.getElem?_append_right (by omega : pre.length ≤ pre.length + 1)]
      have : pre.length + 1 - pre.length = 1 := by omega
      rw [this]
      simp
    rw [h1, h2]
    have hm := ih (pre ++ [prev]) c (addLine acc prev c)
    simp only [List.length_append, List.length_cons, List.length_nil, List.append_assoc,
      List.cons_append, List.nil_append] at hm
    simp only [List.zip_cons_cons, List.foldl_cons]
    exact hm

theorem segment_calls_fold {B C : Type} (addLine : B → C → C → B) (pts : List C) (acc : B) :
    (List.range pts.length).foldl
      (fun acc2 i =>
        match pts.get? (i - 1), pts.get? i with
        | some p, some c => addLine acc2 p c
        | _, _ => acc2) acc
    = (segment_line_calls pts).foldl (fun a pq => addLine a pq.1 pq.2) acc := by
  cases pts with
  | nil => rfl
  | cons p rest =>
    simp only [List.length_cons, List.range_eq_range', List.range'_succ, List.foldl_cons]
    have hm := tail_calls_fold addLine rest [] p (addLine acc p p)
    simp only [List.length_nil, List.nil_append, Nat.zero_add] at hm
    exact hm

/-- C9: folding a journey vector into a bitmap performs exactly one
add_line call per consecutive pair of points of each track segment, with
the first point of a segment paired with itself, and no call pairs points
across a segment boundary. -/
theorem c9_polyline_rasterization {B C : Type} (addLine : B → C → C → B) (b : B)
    (v : JourneyVector C) :
    add_journey_vector_to_journey_bitmap addLine b v
      = (journey_line_calls v).foldl (fun a pq => addLine a pq.1 pq.2) b := by
  obtain ⟨segs⟩ := v
  unfold add_journey_vector_to_journey_bitmap journey_line_calls
  dsimp only
  induction segs generalizing b with
  | nil => rfl
  | cons seg rest ih =>
    simp only [List.foldl_cons, List.flatMap_cons, List.foldl_append]
    rw [segment_calls_fold]
    exact ih _

theorem get_kind_post {C : Type} (addLine : JourneyBitmap → C → C → JourneyBitmap)
    (txn : Txn C) (cache : JourneyCacheState) (k : JourneyKind) :
    (get_all_finalized_journeys addLine txn cache (.journeyKind k)).1 (.journeyKind k)
      = some (get_all_finalized_journeys addLine txn cache (.journeyKind k)).2 ∧
    ∀ lk, lk ≠ .journeyKind k →
      (get_all_finalized_journeys addLine txn cache (.journeyKind k)).1 lk = cache lk := by
  unfold get_all_finalized_journeys
  cases hc : cache (.journeyKind k) with
  | some b => exact ⟨hc, fun lk h => rfl⟩
  | none =>
    constructor
    · simp [cache_insert]
    · intro lk h
      simp [cache_insert, h]

/-- C7: fetching the All layer through the cache returns the merge of the
two kind sub-layers as subsequently fetched through the same cache,
provided the starting cache is coherent (as every cache reachable from
the empty cache is). -/
theorem c7_all_layer_merge {C : Type} (addLine : JourneyBitmap → C → C → JourneyBitmap)
    (txn : Txn C) (cache : JourneyCacheState) (hcoh : cache_coherent cache) :
    (get_all_finalized_journeys addLine txn cache .all).2 =
      ((get_all_finalized_journeys addLine txn
          (get_all_finalized_journeys addLine txn cache .all).1
          (.journeyKind .defaultKind)).2).merge
        (get_all_finalized_journeys addLine txn
          (get_all_finalized_journeys addLine txn
            (get_all_finalized_journeys addLine txn cache .all).1
            (.journeyKind .defaultKind)).1
          (.journeyKind .flight)).2 := by
  cases hall : cache .all with
  | some a =>
    obtain ⟨d, f, hd, hf, hmerge⟩ := hcoh a hall
    have e1 : get_all_finalized_journeys addLine txn cache .all = (cache, a) := by
      unfold get_all_finalized_journeys
      rw [hall]
    have e2 : get_all_finalized_journeys addLine txn cache (.journeyKind .defaultKind)
        = (cache, d) := by
      unfold get_all_finalized_journeys
      rw [hd]
    have e3 : get_all_finalized_journeys addLine txn cache (.journeyKind .flight)
        = (cache, f) := by
      unfold get_all_finalized_journeys
      rw [hf]
    rw [e1]
    dsimp only
    rw [e2]
    dsimp only
    rw [e3]
    exact hmerge
  | none =>
    have hpost1 := get_kind_post addLine txn cache JourneyKind.defaultKind
    set r1 := get_all_finalized_journeys addLine txn cache (.journeyKind .defaultKind)
      with hr1
    have hpost2 := get_kind_post addLine txn r1.1 JourneyKind.flight
    set r2 := get_all_finalized_journeys addLine txn r1.1 (.journeyKind .flight) with hr2
    have e1 : get_all_finalized_journeys addLine txn cache .all
        = (cache_insert r2.1 .all (r1.2.merge r2.2), r1.2.merge r2.2) := by
      conv_lhs => rw [get_all_finalized_journeys]
      rw [hall]
    have hc1d : cache_insert r2.1 .all (r1.2.merge r2.2) (.journeyKind .defaultKind)
        = some r1.2 := by
      have h1 : r2.1 (.journeyKind .defaultKind) = r1.1 (.journeyKind .defaultKind) :=
        hpost2.2 _ (by simp)
      have h2 : r1.1 (.journeyKind .defaultKind) = some r1.2 := hpost1.1
      simp [cache_insert, h1, h2]
    have hc1f : cache_insert r2.1 .all (r1.2.merge r2.2) (.journeyKind .flight)
        = some r2.2 := by
      simp [cache_insert, hpost2.1]
    have e2 : get_all_finalized_journeys addLine txn
        (cache_insert r2.1 .all (r1.2.merge r2.2)) (.journeyKind .defaultKind)
        = (cache_insert r2.1 .all (r1.2.merge r2.2), r1.2) := by
      conv_lhs => rw [get_all_finalized_journeys]
      rw [hc1d]
    have e3 : get_all_finalized_journeys addLine txn
        (cache_insert r2.1 .all (r1.2.merge r2.2)) (.journeyKind .flight)
        = (cache_insert r2.1 .all (r1.2.merge r2.2), r2.2) := by
      conv_lhs => rw [get_all_finalized_journeys]
      rw [hc1f]
    rw [e1]
    dsimp only
    rw [e2]
    dsimp only
    rw [e3]

/-- Witness for C7: the empty cache is coherent, and the theorem applies. -/
theorem c7_all_layer_merge_witness :
    cache_coherent (fun _ => none) ∧
    (get_all_finalized_journeys (fun (b : JourneyBitmap) (_ _ : Unit) => b)
        (Txn.mk []) (fun _ => none) .all).2 =
      ((get_all_finalized_journeys (fun (b : JourneyBitmap) (_ _ : Unit) => b)
          (Txn.mk []) (get_all_finalized_journeys (fun (b : JourneyBitmap) (_ _ : Unit) => b)
            (Txn.mk []) (fun _ => none) .all).1
          (.journeyKind .defaultKind)).2).merge
        (get_all_finalized_journeys (fun (b : JourneyBitmap) (_ _ : Unit) => b)
          (Txn.mk []) (get_all_finalized_journeys (fun (b : JourneyBitmap) (_ _ : Unit) => b)
            (Txn.mk []) (get_all_finalized_journeys (fun (b : JourneyBitmap) (_ _ : Unit) => b)
              (Txn.mk []) (fun _ => none) .all).1
            (.journeyKind .defaultKind)).1
          (.journeyKind .flight)).2 :=
  ⟨(fun _a h => nomatch h),
    c7_all_layer_merge (fun (b : JourneyBitmap) (_ _ : Unit) => b) (Txn.mk [])
      (fun _ => none) (fun _a h => nomatch h)⟩

theorem string_append_ne_empty (s t : String) (h : s ≠ "") : s ++ t ≠ "" := by
  intro he
  apply h
  have hl := congrArg String.length he
  rw [String.length_append] at hl
  have hz : String.length "" = 0 := rfl
  have h0 : s.length = 0 := by omega
  cases s with
  | mk data =>
    cases data with
    | nil => rfl
    | cons c cs =>
      rw [String.length_mk] at h0
      simp at h0

/-- C1, amended: every invalid parameter combination makes the
rasterization routine return a descriptive nonempty error message; the
counterexample separately shows that get_tile_buffer performs lazy tile
pre-loading before this validation. -/
theorem c1_invalid_viewport_errors (sh : Shader) (bm : JourneyBitmap)
    (x y z width height buffer_size_power : Int)
    (hinv : width ≤ 0 ∨ height ≤ 0 ∨ 20 < width ∨ 20 < height ∨ z < 0 ∨ 25 < z ∨
      buffer_size_power < 6 ∨ 11 < buffer_size_power ∨ y < 0 ∨ (2 : Int) ^ z.toNat ≤ y) :
    ∃ msg, tile_buffer_from_journey_bitmap sh bm x y z width height buffer_size_power
        = Except.error msg ∧ msg ≠ "" := by
  unfold tile_buffer_from_journey_bitmap
  by_cases h1 : width ≤ 0 ∨ height ≤ 0
  · rw [if_pos h1]
    refine ⟨_, rfl, ?_⟩
    repeat' apply string_append_ne_empty
    decide
  · rw [if_neg h1]
    by_cases h2 : 20 < width ∨ 20 < height
    · rw [if_pos h2]
      refine ⟨_, rfl, ?_⟩
      repeat' apply string_append_ne_empty
      decide
    · rw [if_neg h2]
      by_cases h3 : z < 0 ∨ 25 < z
      · rw [if_pos h3]
        refine ⟨_, rfl, ?_⟩
        repeat' apply string_append_ne_empty
        decide
      · rw [if_neg h3]
        by_cases h4 : buffer_size_power < 6 ∨ 11 < buffer_size_power
        · rw [if_pos h4]
          refine ⟨_, rfl, ?_⟩
          repeat' apply string_append_ne_empty
          decide
        · rw [if_neg h4]
          dsimp only
          have h5 : y < 0 ∨ (2 : Int) ^ z.toNat ≤ y := by tauto
          rw [if_pos h5]
          refine ⟨_, rfl, ?_⟩
          repeat' apply string_append_ne_empty
          decide

/-- Witness for C1 at a concrete invalid width. -/
theorem c1_invalid_viewport_errors_witness :
    ((21 : Int) ≤ 0 ∨ (1 : Int) ≤ 0 ∨ 20 < (21 : Int) ∨ 20 < (1 : Int) ∨ (9 : Int) < 0 ∨
      25 < (9 : Int) ∨ (9 : Int) < 6 ∨ 11 < (9 : Int) ∨ (0 : Int) < 0 ∨
      (2 : Int) ^ (9 : Int).toNat ≤ 0) ∧
    (∃ msg, tile_buffer_from_journey_bitmap null_shader JourneyBitmap.new 0 0 9 21 1 9
        = Except.error msg ∧ msg ≠ "") :=
  ⟨by decide,
    c1_invalid_viewport_errors null_shader JourneyBitmap.new 0 0 9 21 1 9 (by norm_num)⟩

/-- Counterexample to C1 as stated: an invalid call (width 21 exceeds the
20-tile maximum) still pre-loads lazy tiles, so loaded_tiles and the
working bitmap change even though a descriptive error is returned. -/
theorem c1_invalid_viewport_counterexample :
    (sample_renderer.get_tile_buffer null_shader 0 0 9 21 1 9).2.isOk = false ∧
    (sample_renderer.get_tile_buffer null_shader 0 0 9 21 1 9).1.loaded_tiles
      ≠ sample_renderer.loaded_tiles ∧
    (sample_renderer.get_tile_buffer null_shader 0 0 9 21 1 9).1.journey_bitmap.tiles (0, 0)
      ≠ sample_renderer.journey_bitmap.tiles (0, 0) := by
  decide

theorem foldl_invariant {α β : Type} (l : List α) (f : β → α → β) (Inv : β → Prop)
    (H : ∀ b a, a ∈ l → Inv b → Inv (f b a)) (b0 : β) (h0 : Inv b0) : Inv (l.foldl f b0) := by
  induction l generalizing b0 with
  | nil => exact h0
  | cons hd tl ih =>
    exact ih (fun b a ha hb => H b a (List.mem_cons_of_mem hd ha) hb) _
      (H b0 hd (List.mem_cons_self hd tl) h0)

theorem shade_step_ok (sh : Shader) (bm : JourneyBitmap) (zc : Int)
    {x y width height : Int} (b : TileBuffer) (tile_x tile_y : Int)
    (hbx : b.x = x) (hby : b.y = y) (hbw : b.width = width) (hlen : b.tile_data.length
      = (width * height).toNat)
    (htx1 : x ≤ tile_x) (htx2 : tile_x < x + width)
    (hty1 : y ≤ tile_y) (hty2 : tile_y < y + height) :
    ∃ b', shade_step sh bm zc b tile_x tile_y = Except.ok b' ∧ b'.x = b.x ∧ b'.y = b.y ∧
      b'.z = b.z ∧ b'.width = b.width ∧ b'.height = b.height ∧
      b'.buffer_size_power = b.buffer_size_power ∧
      b'.tile_data.length = b.tile_data.length := by
  unfold shade_step TileBuffer.calculate_tile_index
  have hP : 0 ≤ (tile_y - b.y) * b.width + (tile_x - b.x) := by
    rw [hby, hbw, hbx]
    have hh1 : 0 ≤ tile_y - y := by omega
    have hh2 : 0 ≤ tile_x - x := by omega
    have hh3 : 0 ≤ width := by omega
    nlinarith
  have hPQ : (tile_y - b.y) * b.width + (tile_x - b.x) < width * height := by
    rw [hby, hbw, hbx]
    have hh1 : tile_y - y ≤ height - 1 := by omega
    have hh2 : tile_x - x ≤ width - 1 := by omega
    have hh3 : 0 < width := by omega
    nlinarith
  have hidx : ((tile_y - b.y) * b.width + (tile_x - b.x)).toNat < b.tile_data.length := by
    rw [hlen]
    omega
  rw [if_neg (by omega)]
  exact ⟨_, rfl, rfl, rfl, rfl, rfl, rfl, rfl, by simp⟩

theorem tile_buffer_ok (sh : Shader) (bm : JourneyBitmap)
    (x y z width height bsp : Int)
    (hw1 : 0 < width) (hw2 : width ≤ 20) (hh1 : 0 < height) (hh2 : height ≤ 20)
    (hz1 : 0 ≤ z) (hz2 : z ≤ 25) (hb1 : 6 ≤ bsp) (hb2 : bsp ≤ 11)
    (hy1 : 0 ≤ y) (hy2 : y < 2 ^ z.toNat) :
    ∃ buf, tile_buffer_from_journey_bitmap sh bm x y z width height bsp = Except.ok buf ∧
      buf.x = x ∧ buf.y = y ∧ buf.z = z ∧ buf.width = width ∧ buf.height = height ∧
      buf.buffer_size_power = bsp := by
  unfold tile_buffer_from_journey_bitmap
  have hc1 : ¬(width ≤ 0 ∨ height ≤ 0) := by omega
  have hc2 : ¬(20 < width ∨ 20 < height) := by omega
  have hc3 : ¬(z < 0 ∨ 25 < z) := by omega
  have hc4 : ¬(bsp < 6 ∨ 11 < bsp) := by omega
  have hc5 : ¬(y < 0 ∨ (2 : Int) ^ z.toNat ≤ y) := by omega
  rw [if_neg hc1, if_neg hc2, if_neg hc3, if_neg hc4]
  dsimp only
  rw [if_neg hc5]
  have hInv := foldl_invariant (rangeInt y (y + height))
    (fun acc tile_y => (rangeInt x (x + width)).foldl
      (fun acc2 tile_x => acc2.bind (fun b => shade_step sh bm (2 ^ z.toNat) b tile_x tile_y))
      acc)
    (fun acc => ∃ b, acc = Except.ok b ∧ b.x = x ∧ b.y = y ∧ b.z = z ∧ b.width = width ∧
      b.height = height ∧ b.buffer_size_power = bsp ∧
      b.tile_data.length = (width * height).toNat)
    (by
      intro acc tile_y hty hInvAcc
      have hty' := mem_rangeInt.mp hty
      exact foldl_invariant (rangeInt x (x + width))
        (fun acc2 tile_x => acc2.bind
          (fun b => shade_step sh bm (2 ^ z.toNat) b tile_x tile_y))
        (fun acc => ∃ b, acc = Except.ok b ∧ b.x = x ∧ b.y = y ∧ b.z = z ∧ b.width = width ∧
          b.height = height ∧ b.buffer_size_power = bsp ∧
          b.tile_data.length = (width * height).toNat)
        (by
          intro acc2 tile_x htx hInv2
          have htx' := mem_rangeInt.mp htx
          obtain ⟨b, hb, f1, f2, f3, f4, f5, f6, f7⟩ := hInv2
          have hstep := shade_step_ok sh bm (2 ^ z.toNat) b tile_x tile_y f1 f2 f4
            f7 htx'.1 htx'.2 hty'.1 hty'.2
          obtain ⟨b', hb', g1, g2, g3, g4, g5, g6, g7⟩ := hstep
          refine ⟨b', ?_, ?_, ?_, ?_, ?_, ?_, ?_, ?_⟩
          · rw [hb]
            exact hb'
          · rw [g1, f1]
          · rw [g2, f2]
          · rw [g3, f3]
          · rw [g4, f4]
          · rw [g5, f5]
          · rw [g6, f6]
          · rw [g7]
            exact f7
        ) acc hInvAcc)
    (Except.ok ⟨x, y, z, width, height, bsp, List.replicate (width * height).toNat []⟩)
    ⟨_, rfl, rfl, rfl, rfl, rfl, rfl, rfl, by simp⟩
  obtain ⟨b, hb, f1, f2, f3, f4, f5, f6, f7⟩ := hInv
  exact ⟨b, hb, f1, f2, f3, f4, f5, f6⟩

/-- C2, amended: a decompression failure of a tile present in the index is
silently treated as absence: decompress_tile converts the error to none,
ensure_tile_loaded records the tile as loaded and leaves the working
bitmap unchanged, and a frame with valid parameters succeeds instead of
propagating the failure. -/
theorem c2_decompression_failure_swallowed (src : LazyTileSource) (tx ty : Nat)
    (s : MapRenderer) (sh : Shader) (x y z width height bsp : Int)
    (hcor : blob_lookup (tx, ty) src.tile_index = some TilePayload.corrupt)
    (hs : s.lazy_source = some src)
    (hw1 : 0 < width) (hw2 : width ≤ 20) (hh1 : 0 < height) (hh2 : height ≤ 20)
    (hz1 : 0 ≤ z) (hz2 : z ≤ 25) (hb1 : 6 ≤ bsp) (hb2 : bsp ≤ 11)
    (hy1 : 0 ≤ y) (hy2 : y < 2 ^ z.toNat) :
    src.decompress_tile tx ty = none ∧
    (s.ensure_tile_loaded tx ty).journey_bitmap = s.journey_bitmap ∧
    (s.ensure_tile_loaded tx ty).loaded_tiles = insert (tx, ty) s.loaded_tiles ∧
    (s.get_tile_buffer sh x y z width height bsp).2.isOk = true := by
  have hdec : src.decompress_tile tx ty = none := by
    unfold LazyTileSource.decompress_tile
    rw [hcor]
    rfl
  have hok : ∀ bm', (tile_buffer_from_journey_bitmap sh bm' x y z width height bsp).isOk
      = true := by
    intro bm'
    obtain ⟨buf, hbuf, -⟩ := tile_buffer_ok sh bm' x y z width height bsp hw1 hw2 hh1 hh2
      hz1 hz2 hb1 hb2 hy1 hy2
    rw [hbuf]
    rfl
  refine ⟨hdec, ?_, ?_, ?_⟩
  · unfold MapRenderer.ensure_tile_loaded
    by_cases hmem : (tx, ty) ∈ s.loaded_tiles
    · rw [if_pos hmem]
    · rw [if_neg hmem]
      dsimp only
      simp only [hs, hdec]
  · unfold MapRenderer.ensure_tile_loaded
    by_cases hmem : (tx, ty) ∈ s.loaded_tiles
    · rw [if_pos hmem]
      exact (Finset.insert_eq_self.mpr hmem).symm
    · rw [if_neg hmem]
      dsimp only
      simp only [hs, hdec]
  · unfold MapRenderer.get_tile_buffer
    dsimp only
    exact hok _

/-- Witness for C2 at a concrete corrupt source. -/
theorem c2_decompression_failure_swallowed_witness :
    (blob_lookup (0, 0) corrupt_source.tile_index = some TilePayload.corrupt ∧
      corrupt_renderer.lazy_source = some corrupt_source ∧
      (0 : Int) < 1 ∧ (1 : Int) ≤ 20 ∧ (0 : Int) ≤ 9 ∧ (9 : Int) ≤ 25 ∧
      (6 : Int) ≤ 9 ∧ (9 : Int) ≤ 11 ∧ (0 : Int) ≤ 0 ∧ (0 : Int) < 2 ^ (9 : Int).toNat) ∧
    (corrupt_source.decompress_tile 0 0 = none ∧
      (corrupt_renderer.ensure_tile_loaded 0 0).journey_bitmap
        = corrupt_renderer.journey_bitmap ∧
      (corrupt_renderer.ensure_tile_loaded 0 0).loaded_tiles
        = insert (0, 0) corrupt_renderer.loaded_tiles ∧
      (corrupt_renderer.get_tile_buffer null_shader 0 0 9 1 1 9).2.isOk = true) :=
  ⟨by decide,
    c2_decompression_failure_swallowed corrupt_source 0 0 corrupt_renderer null_shader
      0 0 9 1 1 9 rfl rfl (by norm_num) (by norm_num) (by omega) (by omega) (by norm_num)
      (by omega) (by norm_num) (by omega) (by norm_num) (by decide)⟩

/-- Counterexample to C2 as stated: with the only indexed tile corrupt, the
frame succeeds, the tile is rendered as absent, and the failure is
recorded as a loaded tile instead of propagating. -/
theorem c2_decompression_failure_counterexample :
    blob_lookup (0, 0) corrupt_source.tile_index = some TilePayload.corrupt ∧
    (corrupt_renderer.get_tile_buffer null_shader 0 0 9 1 1 9).2.isOk = true ∧
    (corrupt_renderer.get_tile_buffer null_shader 0 0 9 1 1 9).1.journey_bitmap.tiles (0, 0)
      = none ∧
    (0, 0) ∈ (corrupt_renderer.get_tile_buffer null_shader 0 0 9 1 1 9).1.loaded_tiles := by
  decide

theorem foldl_rel {α β : Type} (l : List α) (f g : β → α → β) (R : β → β → Prop)
    (H : ∀ b1 b2 a, a ∈ l → R b1 b2 → R (f b1 a) (g b2 a)) :
    ∀ b1 b2, R b1 b2 → R (l.foldl f b1) (l.foldl g b2) := by
  induction l with
  | nil => intro b1 b2 h; exact h
  | cons hd tl ih =>
    intro b1 b2 h
    exact ih (fun b1 b2 a ha hr => H b1 b2 a (List.mem_cons_of_mem hd ha) hr) _ _
      (H b1 b2 hd (List.mem_cons_self hd tl) h)

theorem rangeInt_shift (a w : Int) :
    rangeInt a (a + w) = (List.range w.toNat).map (fun n : Nat => a + (n : Int)) := by
  unfold rangeInt
  rw [show a + w - a = w by ring]

theorem shade_step_eval (sh : Shader) (bm : JourneyBitmap) (zc : Int)
    (bx by_ bz bw bh bbsp : Int) (td : List (List (Nat × Nat))) (tile_x tile_y : Int)
    (hidx : ((tile_y - by_) * bw + (tile_x - bx)).toNat < td.length) :
    shade_step sh bm zc ⟨bx, by_, bz, bw, bh, bbsp, td⟩ tile_x tile_y
      = Except.ok ⟨bx, by_, bz, bw, bh, bbsp,
          td.set ((tile_y - by_) * bw + (tile_x - bx)).toNat
            ((td.getD ((tile_y - by_) * bw + (tile_x - bx)).toNat [])
              ++ pixel_filter bbsp (sh 0 0 bm (rust_wrap tile_x zc) tile_y bz bbsp))⟩ := by
  unfold shade_step TileBuffer.calculate_tile_index
  dsimp only
  rw [if_neg (by omega)]

/-- C6: for a valid request, each view tile is shaded at its x coordinate
wrapped into the mercator range by the double truncated-remainder idiom,
while the returned buffer echoes the unwrapped input x; two inputs
congruent modulo 2 to the z (such as x of -1 and 2047 at zoom 11) produce
identical tile data. -/
theorem c6_wrap_and_echo (sh : Shader) (bm : JourneyBitmap)
    (x1 x2 y z width height bsp : Int)
    (hw1 : 0 < width) (hw2 : width ≤ 20) (hh1 : 0 < height) (hh2 : height ≤ 20)
    (hz1 : 0 ≤ z) (hz2 : z ≤ 25) (hb1 : 6 ≤ bsp) (hb2 : bsp ≤ 11)
    (hy1 : 0 ≤ y) (hy2 : y < 2 ^ z.toNat)
    (hx : x1.emod (2 ^ z.toNat) = x2.emod (2 ^ z.toNat)) :
    (tile_buffer_from_journey_bitmap sh bm x1 y z width height bsp).map
        TileBuffer.tile_data
      = (tile_buffer_from_journey_bitmap sh bm x2 y z width height bsp).map
        TileBuffer.tile_data ∧
    (tile_buffer_from_journey_bitmap sh bm x1 y z width height bsp).map (fun b => b.x)
      = Except.ok x1 ∧
    (tile_buffer_from_journey_bitmap sh bm x2 y z width height bsp).map (fun b => b.x)
      = Except.ok x2 := by
  have hzc : (0 : Int) < 2 ^ z.toNat := by positivity
  have hc1 : ¬(width ≤ 0 ∨ height ≤ 0) := by omega
  have hc2 : ¬(20 < width ∨ 20 < height) := by omega
  have hc3 : ¬(z < 0 ∨ 25 < z) := by omega
  have hc4 : ¬(bsp < 6 ∨ 11 < bsp) := by omega
  have hc5 : ¬(y < 0 ∨ (2 : Int) ^ z.toNat ≤ y) := by omega
  refine ⟨?_, ?_, ?_⟩
  · unfold tile_buffer_from_journey_bitmap
    rw [if_neg hc1, if_neg hc1, if_neg hc2, if_neg hc2, if_neg hc3, if_neg hc3,
      if_neg hc4, if_neg hc4]
    dsimp only
    rw [if_neg hc5, if_neg hc5]
    have hwrapall : ∀ i : Int,
        rust_wrap (x1 + i) (2 ^ z.toNat) = rust_wrap (x2 + i) (2 ^ z.toNat) := by
      intro i
      rw [rust_wrap_eq_emod _ hzc, rust_wrap_eq_emod _ hzc]
      show (x1 + i) % (2 ^ z.toNat) = (x2 + i) % (2 ^ z.toNat)
      have hx' : x1 % (2 ^ z.toNat) = x2 % (2 ^ z.toNat) := hx
      rw [Int.add_emod, hx', ← Int.add_emod]
    have hrel := foldl_rel (rangeInt y (y + height))
      (fun acc tile_y => (rangeInt x1 (x1 + width)).foldl
        (fun acc2 tile_x => acc2.bind
          (fun b => shade_step sh bm (2 ^ z.toNat) b tile_x tile_y)) acc)
      (fun acc tile_y => (rangeInt x2 (x2 + width)).foldl
        (fun acc2 tile_x => acc2.bind
          (fun b => shade_step sh bm (2 ^ z.toNat) b tile_x tile_y)) acc)
      (fun acc1 acc2 => ∃ td, acc1 = Except.ok ⟨x1, y, z, width, height, bsp, td⟩ ∧
        acc2 = Except.ok ⟨x2, y, z, width, height, bsp, td⟩ ∧
        td.length = (width * height).toNat)
      (by
        intro acc1 acc2 ty hty hR
        have hty' := mem_rangeInt.mp hty
        dsimp only
        rw [rangeInt_shift x1 width, rangeInt_shift x2 width, List.foldl_map, List.foldl_map]
        refine foldl_rel (List.range width.toNat) _ _
          (fun acc1 acc2 => ∃ td, acc1 = Except.ok ⟨x1, y, z, width, height, bsp, td⟩ ∧
            acc2 = Except.ok ⟨x2, y, z, width, height, bsp, td⟩ ∧
            td.length = (width * height).toNat) ?_ acc1 acc2 hR
        intro b1 b2 i hi hR2
        obtain ⟨td, e1, e2, hlen⟩ := hR2
        have him := List.mem_range.mp hi
        have hiw : (i : Int) < width := by omega
        have ha1 : x1 + (i : Int) - x1 = (i : Int) := by ring
        have ha2 : x2 + (i : Int) - x2 = (i : Int) := by ring
        have hb1 : 0 ≤ (ty - y) * width + (i : Int) := by nlinarith [hty'.1, hty'.2]
        have hb2 : (ty - y) * width + (i : Int) < width * height := by
          nlinarith [hty'.1, hty'.2]
        have hidx1 : ((ty - y) * width + ((x1 + (i : Int)) - x1)).toNat < td.length := by
          rw [ha1, hlen]
          omega
        have hidx2 : ((ty - y) * width + ((x2 + (i : Int)) - x2)).toNat < td.length := by
          rw [ha2, hlen]
          omega
        rw [e1, e2]
        have hbind : ∀ (b : TileBuffer) (f : TileBuffer → Except String TileBuffer),
            (Except.ok b : Except String TileBuffer).bind f = f b := fun _ _ => rfl
        rw [hbind, hbind]
        rw [shade_step_eval sh bm (2 ^ z.toNat) x1 y z width height bsp td
            (x1 + (i : Int)) ty hidx1,
          shade_step_eval sh bm (2 ^ z.toNat) x2 y z width height bsp td
            (x2 + (i : Int)) ty hidx2]
        rw [ha1, ha2, hwrapall (i : Int)]
        exact ⟨_, rfl, rfl, by simp [hlen]⟩)
    obtain ⟨td, e1, e2, -⟩ := hrel
      (Except.ok ⟨x1, y, z, width, height, bsp, List.replicate (width * height).toNat []⟩)
      (Except.ok ⟨x2, y, z, width, height, bsp, List.replicate (width * height).toNat []⟩)
      ⟨_, rfl, rfl, by simp⟩
    rw [e1, e2]
    rfl
  · obtain ⟨buf, hbuf, hbx, -⟩ := tile_buffer_ok sh bm x1 y z width height bsp hw1 hw2
      hh1 hh2 hz1 hz2 hb1 hb2 hy1 hy2
    rw [hbuf]
    simp [Except.map, hbx]
  · obtain ⟨buf, hbuf, hbx, -⟩ := tile_buffer_ok sh bm x2 y z width height bsp hw1 hw2
      hh1 hh2 hz1 hz2 hb1 hb2 hy1 hy2
    rw [hbuf]
    simp [Except.map, hbx]

/-- Witness for C6 at zoom 11 with x of -1 and 2047. -/
theorem c6_wrap_and_echo_witness :
    ((0 : Int) < 1 ∧ (1 : Int) ≤ 20 ∧ (0 : Int) ≤ 11 ∧ (11 : Int) ≤ 25 ∧ (6 : Int) ≤ 9 ∧
      (9 : Int) ≤ 11 ∧ (0 : Int) ≤ 1228 ∧ (1228 : Int) < 2 ^ (11 : Int).toNat ∧
      (-1 : Int).emod (2 ^ (11 : Int).toNat) = (2047 : Int).emod (2 ^ (11 : Int).toNat)) ∧
    ((tile_buffer_from_journey_bitmap null_shader JourneyBitmap.new (-1) 1228 11 1 1 9).map
        TileBuffer.tile_data
      = (tile_buffer_from_journey_bitmap null_shader JourneyBitmap.new 2047 1228 11 1 1 9).map
        TileBuffer.tile_data ∧
    (tile_buffer_from_journey_bitmap null_shader JourneyBitmap.new (-1) 1228 11 1 1 9).map
        (fun b => b.x) = Except.ok (-1) ∧
    (tile_buffer_from_journey_bitmap null_shader JourneyBitmap.new 2047 1228 11 1 1 9).map
        (fun b => b.x) = Except.ok 2047) :=
  ⟨by decide,
    c6_wrap_and_echo null_shader JourneyBitmap.new (-1) 2047 1228 11 1 1 9 (by norm_num)
      (by norm_num) (by omega) (by omega) (by norm_num) (by omega) (by norm_num)
      (by omega) (by norm_num) (by decide) (by decide)⟩

theorem prepare_journey_bitmap_eq (b : JourneyBitmap) :
    prepare_journey_bitmap_for_rendering b = b := by
  unfold prepare_journey_bitmap_for_rendering
  cases b with
  | mk tiles =>
    congr 1
    funext k
    show Option.map prepare_tiles_for_rendering (tiles k) = tiles k
    cases tiles k <;> rfl

theorem blob_lookup_eq_none_of_not_mem (k : Nat × Nat) (l : Blob)
    (h : k ∉ l.map Prod.fst) : blob_lookup k l = none := by
  induction l with
  | nil => rfl
  | cons kp rest ih =>
    simp only [List.map_cons, List.mem_cons, not_or] at h
    unfold blob_lookup
    rw [if_neg h.1]
    exact ih h.2

theorem mem_keys_iff_lookup_isSome (k : Nat × Nat) (l : Blob) :
    k ∈ l.map Prod.fst ↔ (blob_lookup k l).isSome := by
  induction l with
  | nil => simp [blob_lookup]
  | cons kp rest ih =>
    simp only [List.map_cons, List.mem_cons]
    unfold blob_lookup
    by_cases hk : k = kp.1
    · simp [hk]
    · simp [hk, ih]

theorem blob_lookup_mem (k : Nat × Nat) (p : TilePayload) :
    ∀ l : Blob, blob_lookup k l = some p → (k, p) ∈ l := by
  intro l
  induction l with
  | nil => intro h; exact absurd h (by simp [blob_lookup])
  | cons kp rest ih =>
    intro h
    unfold blob_lookup at h
    by_cases hk : k = kp.1
    · rw [if_pos hk] at h
      have hp : p = kp.2 := by
        injection h with h2
        exact h2.symm
      rw [hk, hp]
      exact List.mem_cons_self _ _
    · rw [if_neg hk] at h
      exact List.mem_cons_of_mem _ (ih h)

theorem deserialize_fold_good : ∀ (l : Blob) (acc B : JourneyBitmap),
    l.foldlM (fun bm kp => (deserialize_tile kp.2).map (fun t => bm.insert_tile kp.1 t)) acc
      = Except.ok B → ∀ kp ∈ l, ∃ t, kp.2 = TilePayload.tile t := by
  intro l
  induction l with
  | nil =>
    intro acc B h kp hkp
    exact absurd hkp (List.not_mem_nil kp)
  | cons hd rest ih =>
    intro acc B h kp hkp
    rw [List.foldlM_cons] at h
    cases hp : hd.2 with
    | corrupt =>
      rw [hp] at h
      simp only [deserialize_tile, Except.map] at h
      exact nomatch h
    | tile t =>
      rcases List.mem_cons.mp hkp with rfl | hmem
      · exact ⟨t, hp⟩
      · rw [hp] at h
        simp only [deserialize_tile, Except.map, Except.bind] at h
        exact ih (acc.insert_tile hd.1 t) B h kp hmem

theorem deserialize_fold_lookup : ∀ (l : Blob) (acc B : JourneyBitmap),
    (l.map Prod.fst).Nodup →
    l.foldlM (fun bm kp => (deserialize_tile kp.2).map (fun t => bm.insert_tile kp.1 t)) acc
      = Except.ok B →
    ∀ k, B.tiles k = match blob_lookup k l with
      | some (TilePayload.tile t) => some t
      | some TilePayload.corrupt => acc.tiles k
      | none => acc.tiles k := by
  intro l
  induction l with
  | nil =>
    intro acc B hnd h k
    simp only [List.foldlM_nil] at h
    have hBacc : acc = B := by
      injection h
    rw [← hBacc]
    rfl
  | cons hd rest ih =>
    intro acc B hnd h k
    obtain ⟨t, hp⟩ := deserialize_fold_good (hd :: rest) acc B h hd
      (List.mem_cons_self hd rest)
    rw [List.foldlM_cons, hp] at h
    simp only [deserialize_tile, Except.map, Except.bind] at h
    simp only [List.map_cons, List.nodup_cons] at hnd
    have hrest := ih (acc.insert_tile hd.1 t) B hnd.2 h k
    rw [hrest]
    rw [show blob_lookup k (hd :: rest) = if k = hd.1 then some hd.2 else blob_lookup k rest
      from rfl]
    by_cases hk : k = hd.1
    · rw [if_pos hk, hp]
      have hnone : blob_lookup k rest = none := blob_lookup_eq_none_of_not_mem k rest
        (by rw [hk]; exact hnd.1)
      rw [hnone]
      simp [JourneyBitmap.insert_tile, hk]
    · rw [if_neg hk]
      cases hlk : blob_lookup k rest with
      | none => simp [JourneyBitmap.insert_tile, hk]
      | some p =>
        cases p with
        | tile t2 => rfl
        | corrupt => simp [JourneyBitmap.insert_tile, hk]

theorem ensure_tile_loaded_step (s : MapRenderer) (src : LazyTileSource) (x y : Nat)
    (hs : s.lazy_source = some src) (hm : (x, y) ∉ s.loaded_tiles)
    (hbm : s.journey_bitmap.tiles (x, y) = none) :
    (s.ensure_tile_loaded x y).lazy_source = some src ∧
    (s.ensure_tile_loaded x y).loaded_tiles = insert (x, y) s.loaded_tiles ∧
    ∀ k, (s.ensure_tile_loaded x y).journey_bitmap.tiles k
      = if k = (x, y) then src.decompress_tile x y else s.journey_bitmap.tiles k := by
  unfold MapRenderer.ensure_tile_loaded
  rw [if_neg hm]
  dsimp only
  refine ⟨?_, ?_, ?_⟩
  · cases hd : src.decompress_tile x y <;> simp [hs, hd, hbm]
  · cases hd : src.decompress_tile x y <;> simp [hs, hd, hbm]
  · intro k
    cases hd : src.decompress_tile x y with
    | none =>
      simp only [hs, hd]
      by_cases hk : k = (x, y)
      · rw [if_pos hk, hk, hbm]
      · rw [if_neg hk]
    | some ft =>
      simp only [hs, hd, hbm]
      by_cases hk : k = (x, y) <;>
        simp [JourneyBitmap.insert_tile, prepare_tiles_for_rendering, hk]

theorem ensure_fold_load (src : LazyTileSource) :
    ∀ (keys : List (Nat × Nat)) (s : MapRenderer), keys.Nodup →
      s.lazy_source = some src →
      (∀ k ∈ keys, k ∉ s.loaded_tiles) →
      (∀ k ∈ keys, s.journey_bitmap.tiles k = none) →
      ((keys.foldl (fun st k => st.ensure_tile_loaded k.1 k.2) s).lazy_source = some src ∧
        ∀ k, (keys.foldl (fun st k => st.ensure_tile_loaded k.1 k.2) s).journey_bitmap.tiles k
          = if k ∈ keys then src.decompress_tile k.1 k.2
            else s.journey_bitmap.tiles k) := by
  intro keys
  induction keys with
  | nil =>
    intro s hnd hs hld hbm
    exact ⟨hs, fun k => by simp⟩
  | cons k0 rest ih =>
    intro s hnd hs hld hbm
    simp only [List.foldl_cons]
    have hk0eta : (k0.1, k0.2) = k0 := rfl
    have hm0 : (k0.1, k0.2) ∉ s.loaded_tiles := by
      rw [hk0eta]
      exact hld k0 (List.mem_cons_self _ _)
    have hbm0 : s.journey_bitmap.tiles (k0.1, k0.2) = none := by
      rw [hk0eta]
      exact hbm k0 (List.mem_cons_self _ _)
    obtain ⟨g1, g2, g3⟩ := ensure_tile_loaded_step s src k0.1 k0.2 hs hm0 hbm0
    simp only [List.nodup_cons] at hnd
    have hih := ih (s.ensure_tile_loaded k0.1 k0.2) hnd.2 g1
      (by
        intro k hk
        rw [g2, hk0eta]
        simp only [Finset.mem_insert, not_or]
        exact ⟨(by intro he; exact hnd.1 (he ▸ hk)), hld k (List.mem_cons_of_mem _ hk)⟩)
      (by
        intro k hk
        rw [g3 k, hk0eta]
        rw [if_neg (by intro he; exact hnd.1 (he ▸ hk))]
        exact hbm k (List.mem_cons_of_mem _ hk))
    refine ⟨hih.1, fun k => ?_⟩
    rw [hih.2 k]
    by_cases hkr : k ∈ rest
    · rw [if_pos hkr, if_pos (List.mem_cons_of_mem _ hkr)]
    · rw [if_neg hkr, g3 k, hk0eta]
      by_cases hk0 : k = k0
      · rw [if_pos hk0, if_pos (by rw [hk0]; exact List.mem_cons_self _ _), hk0]
      · rw [if_neg hk0, if_neg (by simp [hk0, hkr])]

/-- C3: a renderer set up lazily over a serialized blob and then forced to
load every tile holds, tile for tile, the same bitmap as an eager renderer
built over the full deserialization of the same blob.  The hypotheses say
the blob parses, its tile directory has no duplicate keys and its full
deserialization succeeds, which hold of every serialized bitmap. -/
theorem c3_lazy_eager_equivalence (blob : Blob) (src : LazyTileSource) (B : JourneyBitmap)
    (s : MapRenderer)
    (hsrc : LazyTileSource.from_serialized_bitmap blob = Except.ok src)
    (hnd : (blob.map Prod.fst).Nodup)
    (hB : deserialize_journey_bitmap blob = Except.ok B) :
    JourneyBitmap.equiv
      ((s.replace_lazy src JourneyBitmap.new).ensure_all_tiles_loaded.peek_latest_bitmap)
      ((MapRenderer.new B).peek_latest_bitmap) := by
  have hsrc' : src = ⟨blob⟩ := by
    unfold LazyTileSource.from_serialized_bitmap parse_tile_index at hsrc
    simp only [Except.map] at hsrc
    injection hsrc with h2
    exact h2.symm
  subst hsrc'
  have hkeys : LazyTileSource.tile_keys ⟨blob⟩ = blob.map Prod.fst := rfl
  have hs0lazy : (s.replace_lazy ⟨blob⟩ JourneyBitmap.new).lazy_source = some ⟨blob⟩ := rfl
  have hs0bm : ∀ k,
      (s.replace_lazy ⟨blob⟩ JourneyBitmap.new).journey_bitmap.tiles k = none := by
    intro k
    show (prepare_journey_bitmap_for_rendering JourneyBitmap.new).tiles k = none
    rw [prepare_journey_bitmap_eq]
    rfl
  have hfold := ensure_fold_load ⟨blob⟩ (LazyTileSource.tile_keys ⟨blob⟩)
    (s.replace_lazy ⟨blob⟩ JourneyBitmap.new)
    (by rw [hkeys]; exact hnd) hs0lazy
    (by
      intro k hk
      show k ∉ (∅ : Finset (Nat × Nat))
      simp)
    (fun k hk => hs0bm k)
  intro k
  unfold MapRenderer.ensure_all_tiles_loaded MapRenderer.peek_latest_bitmap
  simp only [hs0lazy]
  rw [hfold.2 k]
  have hBk := deserialize_fold_lookup blob JourneyBitmap.new B hnd hB k
  have hnewB : (MapRenderer.new B).journey_bitmap.tiles k = B.tiles k := by
    show (prepare_journey_bitmap_for_rendering B).tiles k = B.tiles k
    rw [prepare_journey_bitmap_eq]
  rw [hnewB, hBk, hkeys]
  by_cases hk : k ∈ blob.map Prod.fst
  · rw [if_pos hk]
    cases hlk : blob_lookup k blob with
    | none =>
      have := (mem_keys_iff_lookup_isSome k blob).mp hk
      rw [hlk] at this
      simp at this
    | some p =>
      obtain ⟨t, hpt⟩ := deserialize_fold_good blob JourneyBitmap.new B hB (k, p)
        (blob_lookup_mem k p blob hlk)
      show LazyTileSource.decompress_tile ⟨blob⟩ k.1 k.2 = _
      unfold LazyTileSource.decompress_tile
      rw [show ((k.1, k.2) : Nat × Nat) = k from rfl]
      show (blob_lookup k blob).bind (fun p => (deserialize_tile p).toOption) = _
      have hpt2 : p = TilePayload.tile t := hpt
      rw [hlk, hpt2]
      rfl
  · rw [if_neg hk]
    have hnone : blob_lookup k blob = none := blob_lookup_eq_none_of_not_mem k blob hk
    rw [hnone, hs0bm k]
    rfl

/-- Witness for C3 at a concrete one-tile blob. -/
theorem c3_lazy_eager_equivalence_witness :
    (LazyTileSource.from_serialized_bitmap sample_blob = Except.ok sample_source ∧
      (sample_blob.map Prod.fst).Nodup ∧
      deserialize_journey_bitmap sample_blob
        = Except.ok (JourneyBitmap.new.insert_tile (0, 0) sample_tile)) ∧
    JourneyBitmap.equiv
      (((MapRenderer.new JourneyBitmap.new).replace_lazy sample_source
          JourneyBitmap.new).ensure_all_tiles_loaded.peek_latest_bitmap)
      ((MapRenderer.new
          (JourneyBitmap.new.insert_tile (0, 0) sample_tile)).peek_latest_bitmap) :=
  ⟨⟨rfl, by decide, rfl⟩,
    c3_lazy_eager_equivalence sample_blob sample_source
      (JourneyBitmap.new.insert_tile (0, 0) sample_tile)
      (MapRenderer.new JourneyBitmap.new) rfl (by decide) rfl⟩
